import Mathlib

/- Verification of the JSON-to-Markdown renderer and batch converter in
src/json_to_md.py.  The renderer `convert_json_to_markdown` is embedded as a
pure function over an inductive JSON type; the batch driver `main` is embedded
as explicit state passing over a `BatchState` record.  File-system and console
side effects (reading files, writing files, printing) are represented by data:
an input file is a `String × Option Json` pair (name together with the parse
result, `none` standing for a JSON decode error), and a written output file is
an entry appended to `BatchState.outputs`. -/

/- JSON values as produced by Python's json.load: objects keep insertion order
of keys, so an object is a list of key-value pairs; scalars are strings,
integers, booleans and null.  (Float literals are not modelled; no claim
depends on float formatting.) -/
inductive Json where
  | null : Json
  | bool (b : Bool) : Json
  | num (n : Int) : Json
  | str (s : String) : Json
  | arr (items : List Json) : Json
  | obj (fields : List (String × Json)) : Json

/- Python's isinstance(value, (dict, list)). -/
def isComposite : Json → Bool
  | Json.obj _ => true
  | Json.arr _ => true
  | _ => false

/- Whether the value is a Python dict (the only shape with a .get method). -/
def Json.isObj : Json → Bool
  | Json.obj _ => true
  | _ => false

/- FIELDS_TO_SKIP = \x7b"full_description", "claims", "background"\x7d from
json_to_md.py line 15.  The source uses a set; only membership is ever used,
so a list with List.contains is an equivalent embedding. -/
def FIELDS_TO_SKIP : List String := ["full_description", "claims", "background"]

/- indent_str = "    " * indent (line 13). -/
def indentStr (indent : Nat) : String := String.join (List.replicate indent "    ")

/- heading_level = min(6, indent + 1) (line 24). -/
def headingLevel (indent : Nat) : Nat := min 6 (indent + 1)

/- heading_prefix = "#" * heading_level (line 25). -/
def hashes (level : Nat) : String := String.join (List.replicate level "#")

/- Python str.title() restricted to ASCII: the first alphabetic character of
each run of alphabetic characters is upper-cased, the rest lower-cased. -/
def pyTitle (s : String) : String :=
  (s.toList.foldl
    (fun acc c =>
      if c.isAlpha then
        (acc.1.push (if acc.2 then c.toLower else c.toUpper), true)
      else (acc.1.push c, false))
    ("", false)).1

/- key.replace('_', ' '): the pattern is the single character '_', so the
replacement is exactly a character map sending '_' to ' '. -/
def underscoresToSpaces (s : String) : String :=
  (s.toList.map (fun c => if c = '_' then ' ' else c)).asString

/- key.replace('_', ' ').title() (lines 33 and 38). -/
def labelOf (key : String) : String := pyTitle (underscoresToSpaces key)

/- Python str(value) for the scalar JSON values interpolated by the f-strings
in lines 38, 54 and 58.  The renderer only ever interpolates non-composite
values, so the composite cases are unreachable there. -/
def pyStr : Json → String
  | Json.null => "None"
  | Json.bool true => "True"
  | Json.bool false => "False"
  | Json.num n => toString n
  | Json.str s => s
  | Json.arr _ => ""
  | Json.obj _ => ""

/- The renderer, a literal transcription of convert_json_to_markdown
(json_to_md.py lines 5-60).  The Python loop over dict items (respectively
list items) becomes structural recursion over the field (respectively item)
list; appending to markdown_output followed by "".join becomes string
concatenation. -/
mutual
def convert_json_to_markdown : Json → Nat → String
  | Json.obj fields, indent => convertFields fields indent
  | Json.arr items, indent =>
      (if indent > 0 then "\n" else "") ++ convertItems items indent
  | j, _ => pyStr j ++ "\n"

def convertFields : List (String × Json) → Nat → String
  | [], _ => ""
  | (key, value) :: rest, indent =>
      (if FIELDS_TO_SKIP.contains key then ""
       else
         (if indent == 0 || (indent > 0 && isComposite value) then "\n" else "") ++
         (if isComposite value then
            indentStr indent ++ hashes (headingLevel indent) ++ " " ++ labelOf key ++ "\n"
              ++ convert_json_to_markdown value (indent + 1)
          else
            indentStr indent ++ "**" ++ labelOf key ++ ":** " ++ pyStr value ++ "\n"))
      ++ convertFields rest indent

def convertItems : List Json → Nat → String
  | [], _ => ""
  | item :: rest, indent =>
      indentStr indent ++ "- "
        ++ (if isComposite item then convert_json_to_markdown item (indent + 1)
            else pyStr item ++ "\n")
        ++ convertItems rest indent
end

/- One emitted fragment of the renderer, corresponding to one
markdown_output.append(...) site in convert_json_to_markdown:
blank = the spacing "\n" of lines 29 and 43; heading = the heading line of
line 33; field = the bold key-value line of line 38; marker = the "- " list
prefix of line 47; scalarLine = the scalar lines of lines 54 and 58. -/
inductive Piece where
  | blank : Piece
  | heading (indent level : Nat) (key : String) : Piece
  | field (indent : Nat) (key : String) (value : Json) : Piece
  | marker (indent : Nat) : Piece
  | scalarLine (value : Json) : Piece

/- The text of one fragment, exactly the f-string at the matching append
site. -/
def renderPiece : Piece → String
  | Piece.blank => "\n"
  | Piece.heading indent level key =>
      indentStr indent ++ hashes level ++ " " ++ labelOf key ++ "\n"
  | Piece.field indent key value =>
      indentStr indent ++ "**" ++ labelOf key ++ ":** " ++ pyStr value ++ "\n"
  | Piece.marker indent => indentStr indent ++ "- "
  | Piece.scalarLine value => pyStr value ++ "\n"

/- The sequence of fragments the renderer emits, with the recursion flattened;
same branch structure as convert_json_to_markdown. -/
mutual
def pieces : Json → Nat → List Piece
  | Json.obj fields, indent => piecesFields fields indent
  | Json.arr items, indent =>
      (if indent > 0 then [Piece.blank] else []) ++ piecesItems items indent
  | j, _ => [Piece.scalarLine j]

def piecesFields : List (String × Json) → Nat → List Piece
  | [], _ => []
  | (key, value) :: rest, indent =>
      (if FIELDS_TO_SKIP.contains key then []
       else
         (if indent == 0 || (indent > 0 && isComposite value) then [Piece.blank] else []) ++
         (if isComposite value then
            Piece.heading indent (headingLevel indent) key :: pieces value (indent + 1)
          else [Piece.field indent key value]))
      ++ piecesFields rest indent

def piecesItems : List Json → Nat → List Piece
  | [], _ => []
  | item :: rest, indent =>
      Piece.marker indent
        :: ((if isComposite item then pieces item (indent + 1)
             else [Piece.scalarLine item])
            ++ piecesItems rest indent)
end

/- Concatenation of the texts of a fragment list. -/
def joinPieces : List Piece → String
  | [] => ""
  | p :: rest => renderPiece p ++ joinPieces rest

/- Concatenation of a list of strings (used to state list-rendering shape). -/
def joinAll : List String → String
  | [] => ""
  | s :: rest => s ++ joinAll rest

/- The key a fragment renders, if it renders one (heading or bold label). -/
def pieceKey : Piece → Option String
  | Piece.heading _ _ key => some key
  | Piece.field _ key _ => some key
  | _ => none

/- Python dict.get lookup on the field list; dicts produced by json.load have
unique keys, so first-match association lookup is dict lookup. -/
def lookupField : List (String × Json) → String → Option Json
  | [], _ => none
  | (k, v) :: rest, key => if k = key then some v else lookupField rest key

/- json_data.get(key) (line 122): returns the field value (none when absent)
when json_data is a dict, and raises AttributeError otherwise; the raise is
embedded as Except.error. -/
def pyGet (j : Json) (key : String) : Except Unit (Option Json) :=
  match j with
  | Json.obj fields => Except.ok (lookupField fields key)
  | _ => Except.error ()

/- decision in ["ACCEPTED", "REJECTED"] (line 123): Python == between a str
and a value of any other type is False, so only the two exact case-sensitive
strings pass. -/
def isAcceptedDecision : Option Json → Bool
  | some (Json.str s) => s == "ACCEPTED" || s == "REJECTED"
  | _ => false

/- The state main accumulates: the processed and skipped counters of lines
95-96, a counter of files that hit one of the per-file except handlers of
lines 135-140, and the list of output files written (input file name paired
with the markdown content written for it). -/
structure BatchState where
  processed : Nat
  skipped : Nat
  errored : Nat
  outputs : List (String × String)
deriving Repr, DecidableEq

def initState : BatchState := { processed := 0, skipped := 0, errored := 0, outputs := [] }

/- The body of the per-file try of lines 117-140 for one file: a parse
failure (none) is the json.JSONDecodeError handler; an AttributeError from
.get on a non-dict is caught by the generic Exception handler; otherwise the
decision check of lines 122-133 runs, writing one output file and bumping
processed on acceptance, bumping skipped otherwise. -/
def processOne : String × Option Json → BatchState → BatchState
  | (_, none), st => { st with errored := st.errored + 1 }
  | (name, some j), st =>
      match pyGet j "decision" with
      | Except.error _ => { st with errored := st.errored + 1 }
      | Except.ok dec =>
          if isAcceptedDecision dec then
            { st with
                processed := st.processed + 1,
                outputs := st.outputs ++ [(name, convert_json_to_markdown j 0)] }
          else { st with skipped := st.skipped + 1 }

/- The file loop of lines 106-140: stop as soon as the processed count has
reached max_files (the break of lines 107-109, checked before the file is
read), otherwise process the file and continue. -/
def runBatch (maxFiles : Nat) : List (String × Option Json) → BatchState → BatchState
  | [], st => st
  | f :: rest, st =>
      if st.processed ≥ maxFiles then st
      else runBatch maxFiles rest (processOne f st)

/- The main function (lines 62-147; Lean reserves the name main, hence main_run) restricted to its pure content: keep the directory
entries ending in ".json" (line 103), sort them by name (line 104), and run
the loop from zeroed counters.  Command-line parsing, directory creation and
printing carry no state relevant to the claims. -/
def main_run (maxFiles : Nat) (dirFiles : List (String × Option Json)) : BatchState :=
  runBatch maxFiles
    ((dirFiles.filter (fun f => f.1.endsWith ".json")).mergeSort
      (fun a b => decide (a.1 ≤ b.1)))
    initState

/- The acceptance predicate: the file parses, is a dict, and its decision
field holds one of the two accepted literals. -/
def acceptsFile : String × Option Json → Bool
  | (_, none) => false
  | (_, some j) =>
      match pyGet j "decision" with
      | Except.ok dec => isAcceptedDecision dec
      | Except.error _ => false

def numAccepted (files : List (String × Option Json)) : Nat :=
  files.countP acceptsFile

theorem joinPieces_append (a b : List Piece) :
    joinPieces (a ++ b) = joinPieces a ++ joinPieces b := by
  induction a with
  | nil => simp [joinPieces, String.empty_append]
  | cons p rest ih => simp [joinPieces, ih, String.append_assoc]

mutual
theorem conv_eq_joinPieces : ∀ (j : Json) (d : Nat),
    convert_json_to_markdown j d = joinPieces (pieces j d)
  | Json.obj fields, d => by
      rw [convert_json_to_markdown, pieces]
      exact convertFields_eq_joinPieces fields d
  | Json.arr items, d => by
      rw [convert_json_to_markdown, pieces, joinPieces_append,
        convertItems_eq_joinPieces items d]
      congr 1
      split <;> simp [joinPieces, renderPiece, String.append_empty]
  | Json.null, d => by
      simp [convert_json_to_markdown, pieces, joinPieces, renderPiece, String.append_empty]
  | Json.bool b, d => by
      simp [convert_json_to_markdown, pieces, joinPieces, renderPiece, String.append_empty]
  | Json.num n, d => by
      simp [convert_json_to_markdown, pieces, joinPieces, renderPiece, String.append_empty]
  | Json.str s, d => by
      simp [convert_json_to_markdown, pieces, joinPieces, renderPiece, String.append_empty]

theorem convertFields_eq_joinPieces : ∀ (fs : List (String × Json)) (d : Nat),
    convertFields fs d = joinPieces (piecesFields fs d)
  | [], d => by simp [convertFields, piecesFields, joinPieces]
  | (key, value) :: rest, d => by
      rw [convertFields, piecesFields, joinPieces_append,
        convertFields_eq_joinPieces rest d]
      congr 1
      cases hskip : FIELDS_TO_SKIP.contains key with
      | true => simp [joinPieces]
      | false =>
        simp only [Bool.false_eq_true, if_false]
        rw [joinPieces_append]
        congr 1
        · split <;> simp [joinPieces, renderPiece, String.append_empty]
        · cases hc : isComposite value with
          | true =>
            simp only [if_true]
            rw [conv_eq_joinPieces value (d + 1)]
            simp [joinPieces, renderPiece, String.append_assoc]
          | false =>
            simp [joinPieces, renderPiece, String.append_empty]

theorem convertItems_eq_joinPieces : ∀ (xs : List Json) (d : Nat),
    convertItems xs d = joinPieces (piecesItems xs d)
  | [], d => by simp [convertItems, piecesItems, joinPieces]
  | item :: rest, d => by
      rw [convertItems, piecesItems]
      simp only [joinPieces, joinPieces_append, renderPiece]
      rw [convertItems_eq_joinPieces rest d]
      cases hc : isComposite item with
      | true =>
        simp only [if_true]
        rw [conv_eq_joinPieces item (d + 1)]
        simp [String.append_assoc]
      | false =>
        simp [joinPieces, renderPiece, String.append_assoc, String.append_empty]
end

mutual
theorem pieces_key_not_skipped : ∀ (j : Json) (d : Nat) (p : Piece), p ∈ pieces j d →
    ∀ k, pieceKey p = some k → FIELDS_TO_SKIP.contains k = false
  | Json.obj fields, d, p, h => piecesFields_key_not_skipped fields d p h
  | Json.arr items, d, p, h => by
      rw [pieces] at h
      rcases List.mem_append.mp h with h | h
      · intro k hk
        split at h <;> simp_all [pieceKey]
      · exact piecesItems_key_not_skipped items d p h
  | Json.null, d, p, h => by
      have hq : pieces (Json.null) d = [Piece.scalarLine (Json.null)] := rfl
      rw [hq] at h
      simp only [List.mem_singleton] at h
      subst h
      intro k hk
      simp [pieceKey] at hk
  | Json.bool b, d, p, h => by
      have hq : pieces (Json.bool b) d = [Piece.scalarLine (Json.bool b)] := rfl
      rw [hq] at h
      simp only [List.mem_singleton] at h
      subst h
      intro k hk
      simp [pieceKey] at hk
  | Json.num n, d, p, h => by
      have hq : pieces (Json.num n) d = [Piece.scalarLine (Json.num n)] := rfl
      rw [hq] at h
      simp only [List.mem_singleton] at h
      subst h
      intro k hk
      simp [pieceKey] at hk
  | Json.str s, d, p, h => by
      have hq : pieces (Json.str s) d = [Piece.scalarLine (Json.str s)] := rfl
      rw [hq] at h
      simp only [List.mem_singleton] at h
      subst h
      intro k hk
      simp [pieceKey] at hk

theorem piecesFields_key_not_skipped :
    ∀ (fs : List (String × Json)) (d : Nat) (p : Piece), p ∈ piecesFields fs d →
      ∀ k, pieceKey p = some k → FIELDS_TO_SKIP.contains k = false
  | [], d, p, h => by rw [piecesFields] at h; simp at h
  | (key, value) :: rest, d, p, h => by
      rw [piecesFields] at h
      rcases List.mem_append.mp h with h | h
      · cases hskip : FIELDS_TO_SKIP.contains key with
        | true => rw [hskip] at h; simp at h
        | false =>
          simp only [hskip, Bool.false_eq_true, if_false] at h
          rcases List.mem_append.mp h with h | h
          · intro k hk
            split at h <;> simp_all [pieceKey]
          · cases hc : isComposite value with
            | true =>
              simp only [hc, if_true, List.mem_cons] at h
              rcases h with h | h
              · subst h
                intro k hk
                simp only [pieceKey, Option.some.injEq] at hk
                subst hk
                exact hskip
              · exact pieces_key_not_skipped value (d + 1) p h
            | false =>
              simp only [hc, Bool.false_eq_true, if_false, List.mem_singleton] at h
              subst h
              intro k hk
              simp only [pieceKey, Option.some.injEq] at hk
              subst hk
              exact hskip
      · exact piecesFields_key_not_skipped rest d p h

theorem piecesItems_key_not_skipped :
    ∀ (xs : List Json) (d : Nat) (p : Piece), p ∈ piecesItems xs d →
      ∀ k, pieceKey p = some k → FIELDS_TO_SKIP.contains k = false
  | [], d, p, h => by rw [piecesItems] at h; simp at h
  | item :: rest, d, p, h => by
      rw [piecesItems] at h
      rcases List.mem_cons.mp h with h | h
      · subst h
        intro k hk
        simp [pieceKey] at hk
      · rcases List.mem_append.mp h with h | h
        · cases hc : isComposite item with
          | true =>
            simp only [hc, if_true] at h
            exact pieces_key_not_skipped item (d + 1) p h
          | false =>
            simp only [hc, Bool.false_eq_true, if_false, List.mem_singleton] at h
            subst h
            intro k hk
            simp [pieceKey] at hk
        · exact piecesItems_key_not_skipped rest d p h
end

mutual
theorem pieces_heading_eq_level : ∀ (j : Json) (d : Nat) (i l : Nat) (k : String),
    Piece.heading i l k ∈ pieces j d → l = headingLevel i ∧ d ≤ i
  | Json.obj fields, d, i, l, k, h => piecesFields_heading_eq_level fields d i l k h
  | Json.arr items, d, i, l, k, h => by
      rw [pieces] at h
      rcases List.mem_append.mp h with h | h
      · split at h <;> simp_all
      · exact piecesItems_heading_eq_level items d i l k h
  | Json.null, d, i, l, k, h => by
      have hq : pieces Json.null d = [Piece.scalarLine Json.null] := rfl
      rw [hq] at h
      simp at h
  | Json.bool b, d, i, l, k, h => by
      have hq : pieces (Json.bool b) d = [Piece.scalarLine (Json.bool b)] := rfl
      rw [hq] at h
      simp at h
  | Json.num n, d, i, l, k, h => by
      have hq : pieces (Json.num n) d = [Piece.scalarLine (Json.num n)] := rfl
      rw [hq] at h
      simp at h
  | Json.str s, d, i, l, k, h => by
      have hq : pieces (Json.str s) d = [Piece.scalarLine (Json.str s)] := rfl
      rw [hq] at h
      simp at h

theorem piecesFields_heading_eq_level :
    ∀ (fs : List (String × Json)) (d : Nat) (i l : Nat) (k : String),
      Piece.heading i l k ∈ piecesFields fs d → l = headingLevel i ∧ d ≤ i
  | [], d, i, l, k, h => by rw [piecesFields] at h; simp at h
  | (key, value) :: rest, d, i, l, k, h => by
      rw [piecesFields] at h
      rcases List.mem_append.mp h with h | h
      · cases hskip : FIELDS_TO_SKIP.contains key with
        | true => rw [hskip] at h; simp at h
        | false =>
          simp only [hskip, Bool.false_eq_true, if_false] at h
          rcases List.mem_append.mp h with h | h
          · split at h <;> simp_all
          · cases hc : isComposite value with
            | true =>
              simp only [hc, if_true, List.mem_cons] at h
              rcases h with h | h
              · injection h with hi hl hk
                subst hi
                exact ⟨hl, Nat.le_refl _⟩
              · have := pieces_heading_eq_level value (d + 1) i l k h
                exact ⟨this.1, Nat.le_of_succ_le this.2⟩
            | false =>
              simp only [hc, Bool.false_eq_true, if_false, List.mem_singleton] at h
              simp at h
      · exact piecesFields_heading_eq_level rest d i l k h

theorem piecesItems_heading_eq_level :
    ∀ (xs : List Json) (d : Nat) (i l : Nat) (k : String),
      Piece.heading i l k ∈ piecesItems xs d → l = headingLevel i ∧ d ≤ i
  | [], d, i, l, k, h => by rw [piecesItems] at h; simp at h
  | item :: rest, d, i, l, k, h => by
      rw [piecesItems] at h
      rcases List.mem_cons.mp h with h | h
      · simp at h
      · rcases List.mem_append.mp h with h | h
        · cases hc : isComposite item with
          | true =>
            simp only [hc, if_true] at h
            have := pieces_heading_eq_level item (d + 1) i l k h
            exact ⟨this.1, Nat.le_of_succ_le this.2⟩
          | false =>
            simp only [hc, Bool.false_eq_true, if_false, List.mem_singleton] at h
            simp at h
        · exact piecesItems_heading_eq_level rest d i l k h
end

theorem piecesFields_eq_flatMap (fs : List (String × Json)) (d : Nat) :
    piecesFields fs d = fs.flatMap (fun kv =>
      if FIELDS_TO_SKIP.contains kv.1 then []
      else
        (if d == 0 || (d > 0 && isComposite kv.2) then [Piece.blank] else []) ++
        (if isComposite kv.2 then
           Piece.heading d (headingLevel d) kv.1 :: pieces kv.2 (d + 1)
         else [Piece.field d kv.1 kv.2])) := by
  induction fs with
  | nil => rw [piecesFields]; simp
  | cons kv rest ih =>
    obtain ⟨key, value⟩ := kv
    rw [piecesFields, List.flatMap_cons, ih]

theorem piecesItems_eq_flatMap (xs : List Json) (d : Nat) :
    piecesItems xs d = xs.flatMap (fun item =>
      Piece.marker d :: (if isComposite item then pieces item (d + 1)
                         else [Piece.scalarLine item])) := by
  induction xs with
  | nil => rw [piecesItems]; simp
  | cons item rest ih =>
    rw [piecesItems, List.flatMap_cons, ih]
    simp

theorem convertItems_eq_joinAll (xs : List Json) (d : Nat) :
    convertItems xs d = joinAll (xs.map (fun item =>
      indentStr d ++ "- "
        ++ (if isComposite item then convert_json_to_markdown item (d + 1)
            else pyStr item ++ "\n"))) := by
  induction xs with
  | nil => rw [convertItems]; simp [joinAll]
  | cons item rest ih =>
    rw [convertItems, List.map_cons]
    simp only [joinAll]
    rw [ih]

theorem processOne_processed (f : String × Option Json) (st : BatchState) :
    (processOne f st).processed
      = st.processed + (if acceptsFile f then 1 else 0) := by
  obtain ⟨name, c⟩ := f
  cases c with
  | none => simp [processOne, acceptsFile]
  | some j =>
    cases hg : pyGet j "decision" with
    | error e => simp [processOne, acceptsFile, hg]
    | ok dec =>
      cases ha : isAcceptedDecision dec <;>
        simp [processOne, acceptsFile, hg, ha]

theorem processOne_outputs_length (f : String × Option Json) (st : BatchState) :
    (processOne f st).outputs.length
      = st.outputs.length + (if acceptsFile f then 1 else 0) := by
  obtain ⟨name, c⟩ := f
  cases c with
  | none => simp [processOne, acceptsFile]
  | some j =>
    cases hg : pyGet j "decision" with
    | error e => simp [processOne, acceptsFile, hg]
    | ok dec =>
      cases ha : isAcceptedDecision dec <;>
        simp [processOne, acceptsFile, hg, ha]

theorem runBatch_of_quota_reached (q : Nat) (files : List (String × Option Json))
    (st : BatchState) (h : q ≤ st.processed) :
    runBatch q files st = st := by
  cases files with
  | nil => rw [runBatch]
  | cons f rest => rw [runBatch, if_pos h]

theorem runBatch_processed (q : Nat) :
    ∀ (files : List (String × Option Json)) (st : BatchState),
      st.processed ≤ q →
      (runBatch q files st).processed = min q (st.processed + numAccepted files) := by
  intro files
  induction files with
  | nil =>
    intro st h
    rw [runBatch]
    simp only [numAccepted, List.countP_nil, Nat.add_zero]
    omega
  | cons f rest ih =>
    intro st h
    rw [runBatch]
    by_cases hq : st.processed ≥ q
    · rw [if_pos hq]
      have : st.processed = q := Nat.le_antisymm h hq
      simp only [numAccepted, List.countP_cons]
      omega
    · rw [if_neg hq]
      have h1 : (processOne f st).processed ≤ q := by
        rw [processOne_processed]
        split <;> omega
      rw [ih (processOne f st) h1, processOne_processed]
      simp only [numAccepted, List.countP_cons]
      split <;> simp_all
      all_goals omega

theorem runBatch_outputs_length (q : Nat) :
    ∀ (files : List (String × Option Json)) (st : BatchState),
      st.outputs.length = st.processed →
      (runBatch q files st).outputs.length = (runBatch q files st).processed := by
  intro files
  induction files with
  | nil => intro st h; rw [runBatch]; exact h
  | cons f rest ih =>
    intro st h
    rw [runBatch]
    by_cases hq : st.processed ≥ q
    · rw [if_pos hq]; exact h
    · rw [if_neg hq]
      apply ih
      rw [processOne_processed, processOne_outputs_length, h]

theorem runBatch_drops_tail_after_quota (q : Nat) :
    ∀ (pre post : List (String × Option Json)) (st : BatchState),
      q ≤ st.processed + numAccepted pre →
      runBatch q (pre ++ post) st = runBatch q pre st := by
  intro pre
  induction pre with
  | nil =>
    intro post st h
    simp only [numAccepted, List.countP_nil, Nat.add_zero] at h
    rw [List.nil_append, runBatch_of_quota_reached q post st h, runBatch]
  | cons f rest ih =>
    intro post st h
    rw [List.cons_append, runBatch]
    by_cases hq : st.processed ≥ q
    · rw [if_pos hq, runBatch, if_pos hq]
    · rw [if_neg hq]
      rw [runBatch, if_neg hq]
      apply ih
      rw [processOne_processed]
      simp only [numAccepted, List.countP_cons] at h ⊢
      split <;> simp_all
      all_goals omega

/-- Claim C1: for every JSON value rendered by convert_json_to_markdown at any
starting depth, no key of the Excluded Field Set FIELDS_TO_SKIP ever appears
as a rendered key (heading or bolded label) in the output, at any nesting
depth, including mappings nested inside sequences. -/
theorem excluded_fields_never_rendered (j : Json) (d : Nat) (p : Piece)
    (hmem : p ∈ pieces j d) (k : String) (hkey : pieceKey p = some k) :
    FIELDS_TO_SKIP.contains k = false :=
  pieces_key_not_skipped j d p hmem k hkey

/-- Witness for C1: in the record from the spec scenario, the title field is
rendered as a bold label and its key is not excluded. -/
theorem excluded_fields_never_rendered_witness :
    FIELDS_TO_SKIP.contains "title" = false :=
  excluded_fields_never_rendered
    (Json.obj [("decision", Json.str "ACCEPTED"), ("title", Json.str "Widget"),
      ("claims", Json.str "secret text")]) 0
    (Piece.field 0 "title" (Json.str "Widget"))
    (by
      have hq : pieces (Json.obj [("decision", Json.str "ACCEPTED"),
          ("title", Json.str "Widget"), ("claims", Json.str "secret text")]) 0
          = [Piece.blank, Piece.field 0 "decision" (Json.str "ACCEPTED"),
             Piece.blank, Piece.field 0 "title" (Json.str "Widget")] := rfl
      rw [hq]
      simp)
    "title" rfl

/-- Claim C2: every heading the renderer emits for a key reached at nesting
depth i carries heading level min(6, i + 1) (the value of headingLevel), the
depth never goes below the starting depth, the level map is monotonically
non-decreasing in the depth, and the level never exceeds 6. -/
theorem heading_level_min_and_capped :
    (∀ (j : Json) (d i l : Nat) (k : String),
        Piece.heading i l k ∈ pieces j d → l = headingLevel i ∧ d ≤ i) ∧
    (∀ a b : Nat, a ≤ b → headingLevel a ≤ headingLevel b) ∧
    (∀ a : Nat, headingLevel a ≤ 6) := by
  refine ⟨pieces_heading_eq_level, fun a b h => ?_, fun a => ?_⟩
  · simp only [headingLevel]
    omega
  · simp only [headingLevel]
    omega

/-- Witness for C2: the heading emitted for a nested object at depth 0 carries
level 1 = headingLevel 0, and the level map is monotone from 2 to 5. -/
theorem heading_level_min_and_capped_witness :
    (1 = headingLevel 0 ∧ 0 ≤ 0) ∧ headingLevel 2 ≤ headingLevel 5 :=
  ⟨heading_level_min_and_capped.1 (Json.obj [("meta", Json.obj [])]) 0 0 1 "meta"
    (by
      have hq : pieces (Json.obj [("meta", Json.obj [])]) 0
          = [Piece.blank, Piece.heading 0 1 "meta"] := rfl
      rw [hq]
      simp),
   heading_level_min_and_capped.2.1 2 5 (by omega)⟩

/-- Counterexample to claim C3 as stated: for the scalar-only mapping with the
single field title rendered at depth 0, the code inserts a blank separator
line before the very first field (the spacing branch at line 28 fires for
every key when indent is 0, composite or not), so the rendered document
begins with a blank line. -/
theorem blank_precedes_first_scalar_field_at_depth_zero :
    pieces (Json.obj [("title", Json.str "Widget")]) 0
      = [Piece.blank, Piece.field 0 "title" (Json.str "Widget")] ∧
    convert_json_to_markdown (Json.obj [("title", Json.str "Widget")]) 0
      = "\n**Title:** Widget\n" :=
  ⟨rfl, rfl⟩

/-- Claim C3 (amended): a blank separator line is inserted before the start of
each nested mapping/sequence section at every depth, and additionally before
every field, including the very first scalar field, of a mapping rendered at
depth 0; no blank line precedes scalar fields of mappings at depth greater
than 0, and no blank line precedes elements within a sequence (while a
sequence rendered at depth greater than 0 is itself preceded by one blank
line).  The two equations locate every blank the renderer emits. -/
theorem blank_line_insertion_rule (fs : List (String × Json)) (xs : List Json) (d : Nat) :
    pieces (Json.obj fs) d = fs.flatMap (fun kv =>
      if FIELDS_TO_SKIP.contains kv.1 then []
      else
        (if d == 0 || (d > 0 && isComposite kv.2) then [Piece.blank] else []) ++
        (if isComposite kv.2 then
           Piece.heading d (headingLevel d) kv.1 :: pieces kv.2 (d + 1)
         else [Piece.field d kv.1 kv.2])) ∧
    pieces (Json.arr xs) d
      = (if d > 0 then [Piece.blank] else []) ++ xs.flatMap (fun item =>
          Piece.marker d :: (if isComposite item then pieces item (d + 1)
                             else [Piece.scalarLine item])) := by
  constructor
  · rw [pieces]
    exact piecesFields_eq_flatMap fs d
  · rw [pieces, piecesItems_eq_flatMap xs d]

/-- Claim C4: a sequence rendered at depth d emits, for each element, a
list-item marker; a composite element is recursively rendered at depth d + 1
immediately after the marker with no separate heading line for the element
itself, and a scalar element has its text representation appended on the same
line as the marker (the marker string carries no newline). -/
theorem sequence_items_rendered_inline (xs : List Json) (d : Nat) :
    convert_json_to_markdown (Json.arr xs) d
      = (if d > 0 then "\n" else "")
        ++ joinAll (xs.map (fun item =>
             indentStr d ++ "- "
               ++ (if isComposite item then convert_json_to_markdown item (d + 1)
                   else pyStr item ++ "\n"))) := by
  rw [convert_json_to_markdown, convertItems_eq_joinAll]

/-- Claim C8: the renderer is total with no error conditions: every JSON value
shape at every depth produces a text result, equal to the rendering of its
emitted fragment sequence, and every non-composite value falls back to its
text representation followed by a newline. -/
theorem renderer_total_scalar_fallback (j : Json) (d : Nat) :
    convert_json_to_markdown j d = joinPieces (pieces j d) ∧
    (isComposite j = false → convert_json_to_markdown j d = pyStr j ++ "\n") := by
  refine ⟨conv_eq_joinPieces j d, fun h => ?_⟩
  cases j <;> simp_all [isComposite, convert_json_to_markdown]

/-- Witness for C8: null renders to its text representation. -/
theorem renderer_total_scalar_fallback_witness :
    convert_json_to_markdown Json.null 0 = pyStr Json.null ++ "\n" :=
  (renderer_total_scalar_fallback Json.null 0).2 rfl

/-- Claim C9: the renderer is deterministic: two invocations on the same value
and depth produce identical output.  The embedding realises the renderer as a
pure function of the value and the depth alone, which is faithful because the
Python function reads no state other than its two arguments. -/
theorem renderer_deterministic (j : Json) (d : Nat) :
    convert_json_to_markdown j d = convert_json_to_markdown j d := rfl

/-- Claim C5: for every directory listing, the batch converter produces
exactly min(quota, K) output files and reports processed count min(quota, K),
where K is the number of candidate .json files satisfying the acceptance
predicate; and once the processed count reaches the quota the iteration
stops, so the result does not depend on the files after that point (they are
neither read nor counted as skipped). -/
theorem quota_limits_processing (quota : Nat) (dirFiles : List (String × Option Json)) :
    (main_run quota dirFiles).processed
        = min quota (numAccepted (dirFiles.filter (fun f => f.1.endsWith ".json"))) ∧
    (main_run quota dirFiles).outputs.length
        = min quota (numAccepted (dirFiles.filter (fun f => f.1.endsWith ".json"))) ∧
    (∀ (pre post : List (String × Option Json)) (st : BatchState),
      quota ≤ st.processed + numAccepted pre →
      runBatch quota (pre ++ post) st = runBatch quota pre st) := by
  have hperm :
      numAccepted ((dirFiles.filter (fun f => f.1.endsWith ".json")).mergeSort
          (fun a b => decide (a.1 ≤ b.1)))
        = numAccepted (dirFiles.filter (fun f => f.1.endsWith ".json")) :=
    List.Perm.countP_eq acceptsFile (List.mergeSort_perm _ _)
  refine ⟨?_, ?_, runBatch_drops_tail_after_quota quota⟩
  · rw [main_run, runBatch_processed quota _ initState (Nat.zero_le quota)]
    rw [show initState.processed = 0 from rfl, Nat.zero_add, hperm]
  · rw [main_run, runBatch_outputs_length quota _ initState rfl,
      runBatch_processed quota _ initState (Nat.zero_le quota)]
    rw [show initState.processed = 0 from rfl, Nat.zero_add, hperm]

/-- Witness for C5: with quota 1 and two accepted records, processed is
min 1 2 = 1, and the loop result over an accepted file is unchanged by
appending a further file once the quota is covered. -/
theorem quota_limits_processing_witness :
    (main_run 1 [("a.json", some (Json.obj [("decision", Json.str "ACCEPTED")])),
        ("b.json", some (Json.obj [("decision", Json.str "REJECTED")]))]).processed
      = min 1 (numAccepted
          ([("a.json", some (Json.obj [("decision", Json.str "ACCEPTED")])),
            ("b.json", some (Json.obj [("decision", Json.str "REJECTED")]))].filter
            (fun f => f.1.endsWith ".json"))) ∧
    runBatch 1 ([("a.json", some (Json.obj [("decision", Json.str "ACCEPTED")]))]
        ++ [("z.json", none)]) initState
      = runBatch 1 [("a.json", some (Json.obj [("decision", Json.str "ACCEPTED")]))]
          initState :=
  ⟨(quota_limits_processing 1
      [("a.json", some (Json.obj [("decision", Json.str "ACCEPTED")])),
       ("b.json", some (Json.obj [("decision", Json.str "REJECTED")]))]).1,
   (quota_limits_processing 1 []).2.2
     [("a.json", some (Json.obj [("decision", Json.str "ACCEPTED")]))]
     [("z.json", none)] initState (by decide)⟩

/-- Claim C6: for every parsed Record that is a mapping, the batch converter
renders it at depth 0 and writes exactly one output file iff its decision
field equals exactly ACCEPTED or REJECTED (case-sensitive); any other value,
including absence of the field, causes no output file and increments the
skipped count by 1. -/
theorem decision_gate (name : String) (fields : List (String × Json)) (st : BatchState) :
    (isAcceptedDecision (lookupField fields "decision") = true →
      processOne (name, some (Json.obj fields)) st
        = { st with
              processed := st.processed + 1,
              outputs := st.outputs
                ++ [(name, convert_json_to_markdown (Json.obj fields) 0)] }) ∧
    (isAcceptedDecision (lookupField fields "decision") = false →
      processOne (name, some (Json.obj fields)) st
        = { st with skipped := st.skipped + 1 }) ∧
    (∀ dec : Option Json, isAcceptedDecision dec = true ↔
      (dec = some (Json.str "ACCEPTED") ∨ dec = some (Json.str "REJECTED"))) := by
  refine ⟨fun h => ?_, fun h => ?_, fun dec => ?_⟩
  · simp [processOne, pyGet, h]
  · simp [processOne, pyGet, h]
  · cases dec with
    | none => simp [isAcceptedDecision]
    | some j => cases j <;> simp [isAcceptedDecision]

/-- Witness for C6: the spec scenario record with decision PENDING is skipped
and produces no output. -/
theorem decision_gate_witness :
    processOne ("w.json", some (Json.obj [("decision", Json.str "PENDING"),
        ("title", Json.str "Widget")])) initState
      = { initState with skipped := initState.skipped + 1 } :=
  (decision_gate "w.json" [("decision", Json.str "PENDING"), ("title", Json.str "Widget")]
    initState).2.1 rfl

/-- Claim C7: a file whose contents fail to parse as JSON is recorded as
errored, the batch continues with the next file without aborting, and
neither the processed count nor the skipped count changes (the emitted
diagnostic is console output outside the state model). -/
theorem malformed_json_isolated (name : String) (st : BatchState) :
    (processOne (name, none) st).errored = st.errored + 1 ∧
    (processOne (name, none) st).processed = st.processed ∧
    (processOne (name, none) st).skipped = st.skipped ∧
    (processOne (name, none) st).outputs = st.outputs ∧
    (∀ (quota : Nat) (rest : List (String × Option Json)),
      st.processed < quota →
      runBatch quota ((name, none) :: rest) st
        = runBatch quota rest (processOne (name, none) st)) := by
  refine ⟨rfl, rfl, rfl, rfl, fun quota rest h => ?_⟩
  rw [runBatch, if_neg (by omega)]

/-- Witness for C7: a malformed file bumps only the errored counter and the
loop goes on to the rest of the list. -/
theorem malformed_json_isolated_witness :
    (processOne ("bad.json", none) initState).errored = initState.errored + 1 ∧
    runBatch 5 [("bad.json", none)] initState
      = runBatch 5 [] (processOne ("bad.json", none) initState) :=
  ⟨(malformed_json_isolated "bad.json" initState).1,
   (malformed_json_isolated "bad.json" initState).2.2.2.2 5 [] (by decide)⟩

/-- Claim C10: an input file that parses as valid JSON whose top-level value
is not a mapping is treated as a per-file error: the decision lookup raises
(embedded as Except.error), the generic per-file handler catches it, no
output file is written, and neither the processed count nor the skipped count
changes; the batch continues with the next file. -/
theorem nonmapping_record_is_per_file_error (name : String) (j : Json)
    (st : BatchState) (h : j.isObj = false) :
    processOne (name, some j) st = { st with errored := st.errored + 1 } ∧
    (∀ (quota : Nat) (rest : List (String × Option Json)),
      st.processed < quota →
      runBatch quota ((name, some j) :: rest) st
        = runBatch quota rest { st with errored := st.errored + 1 }) := by
  have h1 : processOne (name, some j) st = { st with errored := st.errored + 1 } := by
    cases j <;> simp_all [Json.isObj, processOne, pyGet]
  refine ⟨h1, fun quota rest hq => ?_⟩
  rw [runBatch, if_neg (by omega), h1]

/-- Witness for C10: a top-level array is a per-file error and the loop
continues. -/
theorem nonmapping_record_is_per_file_error_witness :
    processOne ("arr.json", some (Json.arr [Json.num 1])) initState
      = { initState with errored := initState.errored + 1 } ∧
    runBatch 3 [("arr.json", some (Json.arr [Json.num 1]))] initState
      = runBatch 3 [] { initState with errored := initState.errored + 1 } :=
  ⟨(nonmapping_record_is_per_file_error "arr.json" (Json.arr [Json.num 1])
      initState rfl).1,
   (nonmapping_record_is_per_file_error "arr.json" (Json.arr [Json.num 1])
      initState rfl).2 3 [] (by decide)⟩
